import Mathlib

/-!
Verification development for the cloudlus job-dispatch server
(`src/unnamed/part_001`, package `cloudlus`) and the interpolation
utility (`src/scen/interp.go`, package `scen`).

The dispatcher (`Server.dispatcher`) is a single goroutine that owns the
pending queue (`s.queue`), the result cache (`s.alljobs`) and the waiter
registry (`s.submitchans`); every external request reaches it as a message
on one of its channels and is processed one at a time.  We embed that
serialized semantics directly: each `select` arm of the loop becomes a
pure state-transformer on a `Server` record.

Go stores `*Job` pointers: the queue, the cache and the values delivered
to waiters all alias the same heap objects, and `Fetch` mutates
`j.Status` through the queue-head pointer, which is visible through any
cache entry that still holds the same pointer.  We model this faithfully
with an explicit heap: `Server.heap` is the list of allocated `Job`
objects, and the queue and cache hold indices (references) into it.
-/

namespace Cloudlus

/-- Modelled from the spec: the `Job` struct itself (file `job.go` of the
repository) is not under `src/`; only its uses appear in
`src/unnamed/part_001`.  Per spec §3, a Job has a 128-bit `Id` (16 bytes,
modelled as a list of byte values), a `Status` drawn from
{Queued, Running, Complete, Failed}, a `Submitted` timestamp (modelled as
a natural number), an opaque `Payload`, and `Outfiles`, an ordered set of
named output blobs. -/
inductive Status where
  | queued
  | running
  | complete
  | failed
deriving DecidableEq, Repr, Inhabited

/-- Modelled from the spec: rendering of a `Status` value as text (used by
the `%v` format verb in `Server.retrieve`); spec §3 names the states
Queued, Running, Complete, Failed. -/
def statusString : Status → String
  | .queued => "Queued"
  | .running => "Running"
  | .complete => "Complete"
  | .failed => "Failed"

/-- A job identifier: the Go type `[16]byte`, modelled as a list of byte
values (length 16 for every id produced by `convid`). -/
abbrev JobId := List Nat

/-- Modelled from the spec: the `Job` record, see `Status` above. -/
structure Job where
  id : JobId
  status : Status
  submitted : Nat
  payload : List Nat
  outfiles : List (String × List Nat)
deriving DecidableEq, Repr, Inhabited

/-! ### Finite maps as association lists

`s.submitchans` is a Go `map[[16]byte]chan *Job` and `s.alljobs` is the
external `gocache.LRUCache` (dependency `github.com/rwcarlsen/gocache`,
not part of this repository).  Both are modelled at their boundary as
key-value maps: Go map assignment / `cache.Set` replaces the entry for an
existing key, `delete` removes it, lookup / `cache.Get` reports the entry
if present.  The LRU capacity bound and eviction of the cache are not
modelled; no claim below depends on eviction. -/

/-- Map lookup: the value stored for key `k`, if any. -/
def mapGet {V : Type} (k : JobId) (m : List (JobId × V)) : Option V :=
  (m.find? (fun p => p.1 = k)).map (fun p => p.2)

/-- Map deletion: removes the entry for key `k` (Go `delete`). -/
def mapDel {V : Type} (k : JobId) (m : List (JobId × V)) : List (JobId × V) :=
  m.filter (fun p => ¬ p.1 = k)

/-- Map insertion: stores `v` for key `k`, replacing any previous entry
(Go map assignment / `cache.Set`). -/
def mapSet {V : Type} (k : JobId) (v : V) (m : List (JobId × V)) : List (JobId × V) :=
  (k, v) :: mapDel k m

/-! ### The dispatcher state -/

/-- The dispatcher-owned state of `Server` (`src/unnamed/part_001`
lines 22-34): `queue` is the pending FIFO (`s.queue`, a slice of `*Job`),
`alljobs` the result cache (`s.alljobs`), `submitchans` the waiter
registry (`s.submitchans`, each channel identified by a numeric token).
`heap` is the set of allocated `Job` objects; queue entries and cache
entries are references (indices) into it, reflecting that in Go they are
pointers to shared mutable objects. -/
structure Server where
  heap : List Job
  queue : List Nat
  alljobs : List (JobId × Nat)
  submitchans : List (JobId × Nat)
deriving DecidableEq, Repr, Inhabited

/-- The empty server as built by `NewServer`: no jobs, empty queue,
empty cache, empty waiter registry. -/
def emptyServer : Server := ⟨[], [], [], []⟩

/-- The job object a reference points at (Go pointer dereference). -/
def jobAt (s : Server) (r : Nat) : Job :=
  s.heap.getD r default

/-- The jobs currently pending, head first: the queue's references read
through the heap. -/
def queuedJobs (s : Server) : List Job :=
  s.queue.map (jobAt s)

/-- The `submitjobs` arm of `Server.dispatcher` (lines 75-83): if a
result channel was supplied it is registered in `submitchans` under the
job's id; the job's status is set to `StatusQueued` and its `Submitted`
time to now; the job is appended to the tail of the queue and upserted
into `alljobs`.  A fresh heap cell is allocated for the submitted job
object. -/
def submitOp (s : Server) (j : Job) (waiter : Option Nat) (now : Nat) : Server :=
  let chans := match waiter with
    | some w => mapSet j.id w s.submitchans
    | none => s.submitchans
  let j' : Job := { j with status := .queued, submitted := now }
  let r := s.heap.length
  { heap := s.heap ++ [j']
    queue := s.queue ++ [r]
    alljobs := mapSet j.id r s.alljobs
    submitchans := chans }

/-- The `pushjobs` arm of `Server.dispatcher` (lines 96-101): if a waiter
channel is registered for the pushed job's id, the pushed job is
delivered on it and the registration deleted; in every case the pushed
job is upserted into `alljobs`.  Returns the new state together with the
delivery event `(waiter, job)`, if one occurred.  The pushed job is a new
pointer, so it gets a fresh heap cell. -/
def pushOp (s : Server) (j : Job) : Server × Option (Nat × Job) :=
  let r := s.heap.length
  match mapGet j.id s.submitchans with
  | some w =>
      ({ heap := s.heap ++ [j]
         queue := s.queue
         alljobs := mapSet j.id r s.alljobs
         submitchans := mapDel j.id s.submitchans }, some (w, j))
  | none =>
      ({ heap := s.heap ++ [j]
         queue := s.queue
         alljobs := mapSet j.id r s.alljobs
         submitchans := s.submitchans }, none)

/-- The `fetchjobs` arm of `Server.dispatcher` (lines 102-109): if the
queue is non-empty, the head job's status is set to `StatusRunning`
through its pointer (mutating the heap cell, which any aliasing cache
entry sees too), the head is removed, and the (now Running) job is sent
back; on an empty queue `nil` is sent back. -/
def fetchOp (s : Server) : Server × Option Job :=
  match s.queue with
  | [] => (s, none)
  | r :: rest =>
      let j' : Job := { jobAt s r with status := .running }
      ({ s with heap := s.heap.set r j', queue := rest }, some j')

/-- The `statjobs` / `retrievejobs` arms of `Server.dispatcher`
(lines 84-95): a read-only cache lookup, answering the cached job (the
object its cache pointer refers to) or `nil`. -/
def statLookup (s : Server) (id : JobId) : Option Job :=
  (mapGet id s.alljobs).map (jobAt s)

/-! ### RPC facade (`src/unnamed/part_001` lines 240-269) -/

/-- Method `RPC.Fetch` (lines 256-264): sends a work request to the dispatcher;
a `nil` reply becomes the error `"no jobs available to run"`.  The
`wid` argument (the worker's id) is taken but never used by the Go
code. -/
def rpcFetch (s : Server) (wid : JobId) : Server × Except String Job :=
  match fetchOp s with
  | (s', none) => (s', .error "no jobs available to run")
  | (s', some j) => (s', .ok j)

/-! ### Dispatcher traces -/

/-- One request arriving at the dispatcher: the four `select` arms of
`Server.dispatcher`.  `stat` covers both the `statjobs` and
`retrievejobs` arms (identical read-only lookups). -/
inductive Op where
  | submit (j : Job) (waiter : Option Nat) (now : Nat)
  | push (j : Job)
  | fetch
  | stat (id : JobId)
deriving DecidableEq, Repr

/-- The state transformation of one dispatcher iteration. -/
def step (s : Server) (op : Op) : Server :=
  match op with
  | .submit j waiter now => submitOp s j waiter now
  | .push j => (pushOp s j).1
  | .fetch => (fetchOp s).1
  | .stat _ => s

/-- The state after a sequence of dispatcher iterations. -/
def run (s : Server) (ops : List Op) : Server :=
  ops.foldl step s

/-- The `Status` of the job with identifier `id` as observable through
`Stat`/`Retrieve` (a cache lookup followed by a pointer dereference). -/
def statView (s : Server) (id : JobId) : Option Status :=
  (statLookup s id).map (fun j => j.status)

/-! ### Hex ids (`convid`, lines 289-297) -/

/-- The value of one hexadecimal digit, as accepted by Go's
`hex.DecodeString` (`fromHexChar`): `0`-`9`, `a`-`f`, `A`-`F`. -/
def hexDigitVal (c : Char) : Option Nat :=
  if '0' ≤ c ∧ c ≤ '9' then some (c.toNat - '0'.toNat)
  else if 'a' ≤ c ∧ c ≤ 'f' then some (c.toNat - 'a'.toNat + 10)
  else if 'A' ≤ c ∧ c ≤ 'F' then some (c.toNat - 'A'.toNat + 10)
  else none

/-- Go's `hex.DecodeString` on a character list: consumes two hex digits
per output byte; an odd-length input or a non-hex character is an error
(`convid` discards the partial output Go returns alongside the error, so
an `Option` captures what `convid` sees). -/
def hexDecode : List Char → Option (List Nat)
  | [] => some []
  | [_] => none
  | c1 :: c2 :: rest =>
      match hexDigitVal c1, hexDigitVal c2, hexDecode rest with
      | some hi, some lo, some bs => some ((hi * 16 + lo) :: bs)
      | _, _, _ => none

/-- Function `convid` (lines 289-297): hex-decodes the string and copies the bytes
into a zeroed 16-byte array (`copy(id[:], uid)` copies `min 16 (length
uid)` bytes, truncating a longer decode and zero-padding a shorter
one). -/
def convid (str : String) : Option JobId :=
  (hexDecode str.data).map
    (fun uid => uid.take 16 ++ List.replicate (16 - uid.length) 0)

/-! ### HTTP facade (`Server.getjob`, `Server.retrieve`, `Server.submit`) -/

/-- An HTTP response as the handlers produce it: a success body, a
`400 Bad Request` with a message, or a `500` server error. -/
inductive HttpResp where
  | ok (archive : List (String × List Nat))
  | clientError (msg : String)
  | serverError (msg : String)
deriving DecidableEq, Repr

/-- Method `Server.getjob` (lines 200-213): a failed `convid` becomes
`"malformed job id <idstr>"`; a `nil` answer from the dispatcher's stat
lookup becomes `"unknown job id <idstr>"`; otherwise the cached job is
returned. -/
def getjob (s : Server) (idstr : String) : Except String Job :=
  match convid idstr with
  | none => .error ("malformed job id " ++ idstr)
  | some id =>
      match statLookup s id with
      | none => .error ("unknown job id " ++ idstr)
      | some j => .ok j

/-- Method `Server.retrieve` (lines 154-198): a `getjob` error is a `400`; a job
whose status is not `StatusComplete` is a `400` with message
`"job <idstr> status: <status>"`; otherwise the response is one archive
holding each entry of `j.Outfiles` under its name (the zip writing
itself involves no dispatcher state and its in-memory buffer operations
do not fail on these inputs). -/
def retrieveH (s : Server) (idstr : String) : HttpResp :=
  match getjob s idstr with
  | .error msg => .clientError msg
  | .ok j =>
      if j.status ≠ .complete then
        .clientError ("job " ++ idstr ++ " status: " ++ statusString j.status)
      else
        .ok j.outfiles

/-- Method `Server.submit` (lines 114-134): reading the request body
(`ioutil.ReadAll`) may fail, and unmarshalling the body into a job
(`json.Unmarshal`, external to the dispatcher) may fail; either failure
answers `400` with the error's message and returns before anything is
sent to the dispatcher.  On success the job is submitted without a
waiter and the handler answers with the job's id.  `parse` stands for
`json.Unmarshal` composed with `NewJob` (both outside the dispatcher
core). -/
def submitHandler (s : Server) (body : Except String (List Nat))
    (parse : List Nat → Except String Job) (now : Nat) : Server × HttpResp :=
  match body with
  | .error e => (s, .clientError e)
  | .ok data =>
      match parse data with
      | .error e => (s, .clientError e)
      | .ok j => (submitOp s j none now, .ok [])

end Cloudlus

namespace Scen

/-!
### `interpolate` (`src/scen/interp.go` lines 23-47)

`float64` coordinates are modelled by `ℚ`; the claims about this function
concern slice/index bounds, which do not depend on the arithmetic (Go
float division never panics, and a `NaN` comparison only sends the loop
into its extrapolation tail, which performs the same index accesses).
An out-of-range Go slice or index access is a panic; we model every such
access with an `Option`-valued lookup, so a panicking evaluation is
`none` and a returning one is `some`.
-/

/-- One linear-interpolation step:
`lefty + (x-left)/(right-left)*(righty-lefty)`. -/
def lerp (l r : ℚ × ℚ) (x : ℚ) : ℚ :=
  l.2 + (x - l.1) / (r.1 - l.1) * (r.2 - l.2)

/-- The call `sort.Sort(sampleSet(ss))` with `Less i j = ss[i].X < ss[j].X`: some
permutation of the samples ascending in `X` (Go's sort algorithm is
unspecified beyond the ordering; an insertion sort by `X` produces such a
permutation). -/
def sortByX (samples : List (ℚ × ℚ)) : List (ℚ × ℚ) :=
  List.insertionSort (fun p q => p.1 ≤ q.1) samples

/-- Index access with a Go `int` index: negative or past-the-end is a
panic (`none`). -/
def idx? (l : List (ℚ × ℚ)) (i : Int) : Option (ℚ × ℚ) :=
  if i < 0 then none else l[i.toNat]?

/-- The code after the loop (lines 40-45): `end := len(ss)-1` and
accesses to `ss[end-1]` and `ss[end]`, computed in `int` arithmetic (for
one sample, `end-1 = -1` is an index panic). -/
def interpExtrap (ss : List (ℚ × ℚ)) (x : ℚ) : Option ℚ :=
  match idx? ss ((ss.length : Int) - 2), idx? ss ((ss.length : Int) - 1) with
  | some l, some r => some (lerp l r x)
  | _, _ => none

/-- The loop `for i := range ss[:len(ss)-1]` (lines 28-36): while
`i+1 < len(ss)`, reads `ss[i]` and `ss[i+1]` and returns the
interpolation as soon as `x ≤ ss[i+1].X`; when the loop ends without
returning, falls through to the extrapolation tail. -/
def interpLoop (ss : List (ℚ × ℚ)) (x : ℚ) (i : Nat) : Option ℚ :=
  if _h : i + 1 < ss.length then
    match ss[i]?, ss[i + 1]? with
    | some l, some r =>
        if x ≤ r.1 then some (lerp l r x) else interpLoop ss x (i + 1)
    | _, _ => none
  else interpExtrap ss x
termination_by ss.length - i
decreasing_by omega

/-- Function `interpolate` (lines 23-47): copies and sorts the samples, then
returns the evaluation closure.  Evaluating the closure on an empty
sample set panics at the slice expression `ss[:len(ss)-1]` (slice bound
`-1`), modelled by the explicit empty case. -/
def interpolate (samples : List (ℚ × ℚ)) (x : ℚ) : Option ℚ :=
  let ss := sortByX samples
  if ss.length = 0 then none
  else interpLoop ss x 0

end Scen

namespace Cloudlus

/-! ### Map lemmas -/

theorem mapGet_set_self {V : Type} (k : JobId) (v : V) (m : List (JobId × V)) :
    mapGet k (mapSet k v m) = some v := by
  simp [mapGet, mapSet, List.find?]

theorem mapGet_del_self {V : Type} (k : JobId) (m : List (JobId × V)) :
    mapGet k (mapDel k m) = none := by
  induction m with
  | nil => rfl
  | cons p rest ih =>
      by_cases hp : p.1 = k
      · rw [mapDel, List.filter_cons_of_neg (by simpa using hp)]
        exact ih
      · rw [mapDel, List.filter_cons_of_pos (by simpa using hp)]
        rw [mapGet, List.find?_cons_of_neg _ (by simpa using hp)]
        exact ih

theorem mapGet_del_ne {V : Type} (k k' : JobId) (m : List (JobId × V))
    (h : k' ≠ k) : mapGet k' (mapDel k m) = mapGet k' m := by
  induction m with
  | nil => rfl
  | cons p rest ih =>
      by_cases hp : p.1 = k
      · have hne : ¬ p.1 = k' := by rw [hp]; exact fun hc => h hc.symm
        rw [mapDel, List.filter_cons_of_neg (by simpa using hp)]
        rw [show mapGet k' (p :: rest) = mapGet k' rest from by
          rw [mapGet, List.find?_cons_of_neg _ (by simpa using hne)]; rfl]
        exact ih
      · rw [mapDel, List.filter_cons_of_pos (by simpa using hp)]
        by_cases hk : p.1 = k'
        · rw [mapGet, List.find?_cons_of_pos _ (by simpa using hk),
            mapGet, List.find?_cons_of_pos _ (by simpa using hk)]
        · rw [mapGet, List.find?_cons_of_neg _ (by simpa using hk),
            mapGet, List.find?_cons_of_neg _ (by simpa using hk)]
          exact ih

theorem mapGet_set_ne {V : Type} (k k' : JobId) (v : V) (m : List (JobId × V))
    (h : k' ≠ k) : mapGet k' (mapSet k v m) = mapGet k' m := by
  have hne : ¬ (k, v).1 = k' := fun hc => h hc.symm
  rw [mapSet, mapGet, List.find?_cons_of_neg _ (by simpa using hne)]
  exact mapGet_del_ne k k' m h

theorem mem_mapDel {V : Type} (k : JobId) (m : List (JobId × V))
    (p : JobId × V) (hp : p ∈ mapDel k m) : p ∈ m :=
  List.mem_of_mem_filter hp

theorem mem_mapSet {V : Type} (k : JobId) (v : V) (m : List (JobId × V))
    (p : JobId × V) (hp : p ∈ mapSet k v m) : p = (k, v) ∨ p ∈ m := by
  rcases List.mem_cons.mp hp with h | h
  · exact Or.inl h
  · exact Or.inr (mem_mapDel k m p h)

/-! ### Well-formedness of the queue -/

/-- Every pending-queue reference points at an allocated heap cell. -/
def WFqueue (s : Server) : Prop := ∀ r ∈ s.queue, r < s.heap.length

theorem wfQueue_submitOp (s : Server) (j : Job) (waiter : Option Nat) (now : Nat)
    (hwf : WFqueue s) : WFqueue (submitOp s j waiter now) := by
  intro r hr
  simp only [submitOp, List.mem_append, List.mem_singleton] at hr
  simp only [submitOp, List.length_append, List.length_singleton]
  rcases hr with h | h
  · exact Nat.lt_succ_of_lt (hwf r h)
  · omega

theorem jobAt_submitOp_old (s : Server) (j : Job) (waiter : Option Nat)
    (now : Nat) (r : Nat) (hr : r < s.heap.length) :
    jobAt (submitOp s j waiter now) r = jobAt s r := by
  simp only [jobAt, submitOp]
  exact List.getD_append _ _ _ _ hr

theorem jobAt_submitOp_new (s : Server) (j : Job) (waiter : Option Nat)
    (now : Nat) :
    jobAt (submitOp s j waiter now) s.heap.length =
      { j with status := .queued, submitted := now } := by
  simp only [jobAt, submitOp]
  rw [List.getD_append_right _ _ _ _ (Nat.le_refl _)]
  simp [List.getD]

theorem queuedJobs_submitOp (s : Server) (j : Job) (waiter : Option Nat)
    (now : Nat) (hwf : WFqueue s) :
    queuedJobs (submitOp s j waiter now) =
      queuedJobs s ++ [{ j with status := .queued, submitted := now }] := by
  have h1 : s.queue.map (jobAt (submitOp s j waiter now)) =
      s.queue.map (jobAt s) :=
    List.map_congr_left (fun r hr => jobAt_submitOp_old s j waiter now r (hwf r hr))
  have h2 := jobAt_submitOp_new s j waiter now
  simp only [queuedJobs, submitOp, List.map_append, List.map_cons, List.map_nil]
  simp only [submitOp] at h1 h2
  rw [h1, h2]

/-! ### Claims -/

/-- Claim C8: the result of `RPC.Fetch` — both the returned job (or
error) and the dispatcher state it leaves behind — is independent of the
`workerId` argument: there is no per-worker affinity or priority. -/
theorem fetch_independent_of_worker (s : Server) (w1 w2 : JobId) :
    rpcFetch s w1 = rpcFetch s w2 := rfl

/-- Claim C3: `Fetch` on a non-empty pending queue removes the head job,
sets its status to Running (through its pointer), and returns exactly
that job; on an empty queue it returns, without touching the state, the
specific error `"no jobs available to run"`. -/
theorem fetch_pops_head_or_specific_error (s : Server) (wid : JobId) :
    (s.queue = [] →
      rpcFetch s wid = (s, .error "no jobs available to run")) ∧
    (∀ r rest, s.queue = r :: rest →
      rpcFetch s wid =
        ({ s with heap := s.heap.set r { jobAt s r with status := .running },
                  queue := rest },
         .ok { jobAt s r with status := .running })) := by
  constructor
  · intro h
    simp [rpcFetch, fetchOp, h]
  · intro r rest h
    simp [rpcFetch, fetchOp, h]

/-- Witness for C3: on the empty server the specific error is returned,
and after one submission the fetch pops that job. -/
theorem fetch_pops_head_or_specific_error_witness :
    rpcFetch emptyServer [] = (emptyServer, .error "no jobs available to run") :=
  (fetch_pops_head_or_specific_error emptyServer []).1 rfl

/-- Claim C4: `Submit` sets the job's status to Queued and its
`Submitted` time to now, appends it at the tail of the pending queue,
upserts it into the result cache, and registers the supplied waiter
channel under the job's id exactly when one is supplied (the registry is
untouched otherwise). -/
theorem submit_queues_caches_registers (s : Server) (j : Job)
    (waiter : Option Nat) (now : Nat) (hwf : WFqueue s) :
    queuedJobs (submitOp s j waiter now) =
      queuedJobs s ++ [{ j with status := .queued, submitted := now }] ∧
    mapGet j.id (submitOp s j waiter now).alljobs = some s.heap.length ∧
    jobAt (submitOp s j waiter now) s.heap.length =
      { j with status := .queued, submitted := now } ∧
    (∀ w, waiter = some w →
      (submitOp s j waiter now).submitchans = mapSet j.id w s.submitchans) ∧
    (waiter = none →
      (submitOp s j waiter now).submitchans = s.submitchans) := by
  refine ⟨queuedJobs_submitOp s j waiter now hwf, ?_,
    jobAt_submitOp_new s j waiter now, ?_, ?_⟩
  · simp only [submitOp]
    exact mapGet_set_self j.id s.heap.length s.alljobs
  · intro w hw
    simp [submitOp, hw]
  · intro hw
    simp [submitOp, hw]

/-- Witness for C4: one concrete submission to the empty server. -/
theorem submit_queues_caches_registers_witness :
    queuedJobs (submitOp emptyServer
        { id := [7], status := .failed, submitted := 3, payload := [1],
          outfiles := [] } (some 5) 11) =
      queuedJobs emptyServer ++
        [{ id := [7], status := .queued, submitted := 11, payload := [1],
           outfiles := [] }] ∧
    mapGet [7] (submitOp emptyServer
        { id := [7], status := .failed, submitted := 3, payload := [1],
          outfiles := [] } (some 5) 11).alljobs = some emptyServer.heap.length ∧
    jobAt (submitOp emptyServer
        { id := [7], status := .failed, submitted := 3, payload := [1],
          outfiles := [] } (some 5) 11) emptyServer.heap.length =
      { id := [7], status := .queued, submitted := 11, payload := [1],
        outfiles := [] } ∧
    (∀ w, (some 5 : Option Nat) = some w →
      (submitOp emptyServer
        { id := [7], status := .failed, submitted := 3, payload := [1],
          outfiles := [] } (some 5) 11).submitchans =
        mapSet [7] w emptyServer.submitchans) ∧
    ((some 5 : Option Nat) = none →
      (submitOp emptyServer
        { id := [7], status := .failed, submitted := 3, payload := [1],
          outfiles := [] } (some 5) 11).submitchans =
        emptyServer.submitchans) :=
  submit_queues_caches_registers emptyServer
    { id := [7], status := .failed, submitted := 3, payload := [1],
      outfiles := [] } (some 5) 11 (by intro r hr; simp [emptyServer] at hr)

/-- Claim C1: after a synchronous `Submit` of `j` with waiter channel
`w`, a `Push` of any job `j2` with the same id delivers exactly `j2` on
`w` and removes the registration; a second `Push` of `j3` with the same
id then delivers to no waiter and only updates the cache (queue and
waiter registry unchanged, the cache now answering `j3` for that id). -/
theorem sync_submit_push_delivers_once (s : Server) (j j2 j3 : Job)
    (w : Nat) (now : Nat) (h2 : j2.id = j.id) (h3 : j3.id = j.id) :
    (pushOp (submitOp s j (some w) now) j2).2 = some (w, j2) ∧
    mapGet j.id (pushOp (submitOp s j (some w) now) j2).1.submitchans = none ∧
    (pushOp (pushOp (submitOp s j (some w) now) j2).1 j3).2 = none ∧
    (pushOp (pushOp (submitOp s j (some w) now) j2).1 j3).1.queue =
      (pushOp (submitOp s j (some w) now) j2).1.queue ∧
    (pushOp (pushOp (submitOp s j (some w) now) j2).1 j3).1.submitchans =
      (pushOp (submitOp s j (some w) now) j2).1.submitchans ∧
    statLookup (pushOp (pushOp (submitOp s j (some w) now) j2).1 j3).1 j.id =
      some j3 := by
  have e1 : mapGet j2.id (submitOp s j (some w) now).submitchans = some w := by
    rw [h2]
    simp only [submitOp]
    exact mapGet_set_self j.id w s.submitchans
  have hp2 : pushOp (submitOp s j (some w) now) j2 =
      ({ heap := (submitOp s j (some w) now).heap ++ [j2],
         queue := (submitOp s j (some w) now).queue,
         alljobs := mapSet j2.id (submitOp s j (some w) now).heap.length
           (submitOp s j (some w) now).alljobs,
         submitchans := mapDel j2.id (submitOp s j (some w) now).submitchans },
       some (w, j2)) := by
    simp only [pushOp, e1]
  rw [hp2]
  have e3 : mapGet j.id
      (mapDel j2.id (submitOp s j (some w) now).submitchans) = none := by
    rw [h2]
    exact mapGet_del_self j.id _
  have e4 : mapGet j3.id
      (mapDel j2.id (submitOp s j (some w) now).submitchans) = none := by
    rw [h3]
    exact e3
  refine ⟨rfl, e3, ?_, ?_, ?_, ?_⟩
  · simp only [pushOp, e4]
  · simp only [pushOp, e4]
  · simp only [pushOp, e4]
  · simp only [pushOp, e4, statLookup]
    rw [← h3, mapGet_set_self]
    simp only [Option.map_some', jobAt]
    rw [List.getD_append_right _ _ _ _ (Nat.le_refl _)]
    simp [List.getD]

/-- A concrete job used by witnesses: id `[1]`, freshly created. -/
def jobW1 : Job :=
  { id := 1 :: List.replicate 15 0, status := .queued, submitted := 0, payload := [], outfiles := [] }

/-- A concrete completed result for id `[1]` used by witnesses. -/
def jobW2 : Job :=
  { id := 1 :: List.replicate 15 0, status := .complete, submitted := 0, payload := [],
    outfiles := [("o", [2])] }

/-- A concrete failed result for id `[1]` used by witnesses. -/
def jobW3 : Job :=
  { id := 1 :: List.replicate 15 0, status := .failed, submitted := 0, payload := [], outfiles := [] }

/-- Witness for C1: a concrete synchronous submission followed by two
pushes for the same id. -/
theorem sync_submit_push_delivers_once_witness :
    (pushOp (submitOp emptyServer jobW1 (some 9) 4) jobW2).2 =
      some (9, jobW2) ∧
    mapGet (1 :: List.replicate 15 0) (pushOp (submitOp emptyServer jobW1
      (some 9) 4) jobW2).1.submitchans = none ∧
    (pushOp (pushOp (submitOp emptyServer jobW1 (some 9) 4) jobW2).1
      jobW3).2 = none ∧
    (pushOp (pushOp (submitOp emptyServer jobW1 (some 9) 4) jobW2).1
      jobW3).1.queue =
      (pushOp (submitOp emptyServer jobW1 (some 9) 4) jobW2).1.queue ∧
    (pushOp (pushOp (submitOp emptyServer jobW1 (some 9) 4) jobW2).1
      jobW3).1.submitchans =
      (pushOp (submitOp emptyServer jobW1 (some 9) 4) jobW2).1.submitchans ∧
    statLookup (pushOp (pushOp (submitOp emptyServer jobW1 (some 9) 4)
      jobW2).1 jobW3).1 (1 :: List.replicate 15 0) = some jobW3 := by
  have h := sync_submit_push_delivers_once emptyServer jobW1 jobW2 jobW3
    9 4 rfl rfl
  simpa [jobW1] using h

/-- One submission request as the dispatcher receives it: the job, its
optional waiter channel, and the arrival time. -/
structure SubmitReq where
  j : Job
  waiter : Option Nat
  now : Nat
deriving DecidableEq, Repr

/-- The queued snapshot a submission produces. -/
def reqJob (q : SubmitReq) : Job :=
  { q.j with status := .queued, submitted := q.now }

/-- A sequence of `Submit` operations processed by the dispatcher with
nothing interleaved. -/
def submitList (s : Server) (l : List SubmitReq) : Server :=
  l.foldl (fun s q => submitOp s q.j q.waiter q.now) s

theorem wfQueue_submitList (s : Server) (l : List SubmitReq)
    (hwf : WFqueue s) : WFqueue (submitList s l) := by
  induction l generalizing s with
  | nil => exact hwf
  | cons q rest ih =>
      exact ih (submitOp s q.j q.waiter q.now)
        (wfQueue_submitOp s q.j q.waiter q.now hwf)

theorem queuedJobs_submitList (s : Server) (l : List SubmitReq)
    (hwf : WFqueue s) :
    queuedJobs (submitList s l) = queuedJobs s ++ l.map reqJob := by
  induction l generalizing s with
  | nil => simp [submitList]
  | cons q rest ih =>
      have h2 := queuedJobs_submitOp s q.j q.waiter q.now hwf
      rw [submitList, List.foldl_cons,
        show (List.foldl (fun s q => submitOp s q.j q.waiter q.now)
          (submitOp s q.j q.waiter q.now) rest) =
          submitList (submitOp s q.j q.waiter q.now) rest from rfl,
        ih (submitOp s q.j q.waiter q.now)
          (wfQueue_submitOp s q.j q.waiter q.now hwf),
        h2]
      simp [reqJob]

/-- Claim C2: a sequence of `Submit` operations with no `Fetch`
interleaved leaves the pending queue holding exactly the submitted jobs
in submission order, and the first subsequent `Fetch` returns the
first-submitted job (with its status set to Running as `Fetch` does). -/
theorem submits_are_fifo (s : Server) (l : List SubmitReq) (hwf : WFqueue s)
    (hq : s.queue = []) :
    queuedJobs (submitList s l) = l.map reqJob ∧
    (∀ q rest, l = q :: rest → ∀ wid,
      (rpcFetch (submitList s l) wid).2 =
        .ok { q.j with status := .running, submitted := q.now }) := by
  have hqj : queuedJobs s = [] := by simp [queuedJobs, hq]
  have hall := queuedJobs_submitList s l hwf
  rw [hqj, List.nil_append] at hall
  refine ⟨hall, ?_⟩
  intro q rest hl wid
  subst hl
  rcases hss : (submitList s (q :: rest)).queue with _ | ⟨r0, qr⟩
  · exfalso
    have h0 : queuedJobs (submitList s (q :: rest)) = [] := by
      simp [queuedJobs, hss]
    rw [hall] at h0
    simp at h0
  · have h2 : some (jobAt (submitList s (q :: rest)) r0) = some (reqJob q) := by
      have h1 := congrArg List.head? hall
      rw [queuedJobs, hss] at h1
      simpa using h1
    have h3 := Option.some.inj h2
    have hf : fetchOp (submitList s (q :: rest)) =
        ({ submitList s (q :: rest) with
            heap := (submitList s (q :: rest)).heap.set r0
              { jobAt (submitList s (q :: rest)) r0 with status := .running },
            queue := qr },
         some { jobAt (submitList s (q :: rest)) r0 with status := .running }) := by
      simp [fetchOp, hss]
    rw [rpcFetch, hf, h3, reqJob]

/-- Witness for C2: two concrete submissions to the empty server; the
queue holds both in order and the first fetch returns the first. -/
theorem submits_are_fifo_witness :
    queuedJobs (submitList emptyServer [⟨jobW1, none, 0⟩, ⟨jobW3, none, 1⟩]) =
      [reqJob ⟨jobW1, none, 0⟩, reqJob ⟨jobW3, none, 1⟩] ∧
    (rpcFetch (submitList emptyServer [⟨jobW1, none, 0⟩, ⟨jobW3, none, 1⟩])
        []).2 =
      .ok { jobW1 with status := .running, submitted := 0 } := by
  have h := submits_are_fifo emptyServer [⟨jobW1, none, 0⟩, ⟨jobW3, none, 1⟩]
    (by intro r hr; simp [emptyServer] at hr) rfl
  exact ⟨h.1, h.2 ⟨jobW1, none, 0⟩ [⟨jobW3, none, 1⟩] rfl []⟩

/-- Claim C7: a submission whose body cannot be read, or whose body fails
to unmarshal into a job, is answered with a client error carrying the
failure's message, and the dispatcher state is untouched: queue, cache
and waiter registry are exactly as before. -/
theorem malformed_submit_no_mutation (s : Server)
    (body : Except String (List Nat)) (parse : List Nat → Except String Job)
    (now : Nat) (e : String)
    (hbad : body = .error e ∨ ∃ data, body = .ok data ∧ parse data = .error e) :
    submitHandler s body parse now = (s, .clientError e) := by
  rcases hbad with h | ⟨data, hb, hp⟩
  · simp [submitHandler, h]
  · simp [submitHandler, hb, hp]

/-- Witness for C7: an unreadable body and a body that fails to parse,
each against the empty server. -/
theorem malformed_submit_no_mutation_witness :
    submitHandler emptyServer (.error "read failed")
      (fun _ => .error "bad json") 0 =
      (emptyServer, .clientError "read failed") ∧
    submitHandler emptyServer (.ok [1, 2])
      (fun _ => .error "bad json") 0 =
      (emptyServer, .clientError "bad json") :=
  ⟨malformed_submit_no_mutation emptyServer (.error "read failed")
      (fun _ => .error "bad json") 0 "read failed" (Or.inl rfl),
   malformed_submit_no_mutation emptyServer (.ok [1, 2])
      (fun _ => .error "bad json") 0 "bad json"
      (Or.inr ⟨[1, 2], rfl, rfl⟩)⟩

/-- Claim C6: for a retrieve request whose id decodes, an id with no
cache entry is answered `400` with the `"unknown job id"` message; a
cached job whose status is not Complete is answered `400` with a message
carrying the current status; and only a Complete job is answered with
the single archive holding all of its named output blobs. -/
theorem retrieve_status_gated (s : Server) (idstr : String) (id : JobId)
    (hid : convid idstr = some id) :
    (statLookup s id = none →
      retrieveH s idstr = .clientError ("unknown job id " ++ idstr)) ∧
    (∀ j, statLookup s id = some j → j.status ≠ .complete →
      retrieveH s idstr =
        .clientError ("job " ++ idstr ++ " status: " ++ statusString j.status)) ∧
    (∀ j, statLookup s id = some j → j.status = .complete →
      retrieveH s idstr = .ok j.outfiles) := by
  refine ⟨?_, ?_, ?_⟩
  · intro h
    simp [retrieveH, getjob, hid, h]
  · intro j hj hs
    simp [retrieveH, getjob, hid, hj, hs]
  · intro j hj hs
    simp [retrieveH, getjob, hid, hj, hs]

/-- A concrete server used by witnesses: the empty server after
submitting `jobW1` and pushing the completed result `jobW2` for it. -/
def serverW : Server :=
  (pushOp (submitOp emptyServer jobW1 none 0) jobW2).1

/-- Witness for C6: against `serverW`, the id `"01"` (cached, Complete)
yields the archive, while `"02"` (decodable, never submitted) yields the
unknown-id error. -/
theorem retrieve_status_gated_witness :
    retrieveH serverW "01" = .ok jobW2.outfiles ∧
    retrieveH serverW "02" = .clientError ("unknown job id " ++ "02") := by
  have h1 := (retrieve_status_gated serverW "01"
    (1 :: List.replicate 15 0) (by decide)).2.2 jobW2 (by decide) rfl
  have h2 := (retrieve_status_gated serverW "02"
    (2 :: List.replicate 15 0) (by decide)).1 (by decide)
  exact ⟨h1, h2⟩

theorem hexDecode_isSome : ∀ l : List Char,
    (hexDecode l).isSome ↔
      (l.length % 2 = 0 ∧ ∀ c ∈ l, (hexDigitVal c).isSome)
  | [] => by simp [hexDecode]
  | [c] => by simp [hexDecode]
  | c1 :: c2 :: rest => by
      have ih := hexDecode_isSome rest
      rw [hexDecode]
      cases h1 : hexDigitVal c1 <;> cases h2 : hexDigitVal c2 <;>
        cases h3 : hexDecode rest <;>
        simp_all [List.forall_mem_cons, Nat.add_mod_right] <;>
        first
        | omega
        | (intro h; exact ih (by omega))

/-- Claim C9: `convid` succeeds on every even-length all-hex-digit
string regardless of its length — the decoded bytes are copied
left-aligned into a zero-padded 16-byte id, truncated at 16 bytes — so a
well-formed hex string of the wrong length reaches the cache lookup and
reports `"unknown job id"` when absent; `"malformed job id"` is reported
exactly when hex decoding fails (odd length or a non-hex character). -/
theorem convid_length_lenient (s : Server) (str : String) :
    ((str.data.length % 2 = 0 ∧ ∀ c ∈ str.data, (hexDigitVal c).isSome) →
      ∃ bs, hexDecode str.data = some bs ∧
        convid str = some (bs.take 16 ++ List.replicate (16 - bs.length) 0)) ∧
    (convid str = none ↔
      ¬ (str.data.length % 2 = 0 ∧ ∀ c ∈ str.data, (hexDigitVal c).isSome)) ∧
    (convid str = none →
      getjob s str = .error ("malformed job id " ++ str)) ∧
    (convid str ≠ none →
      getjob s str ≠ .error ("malformed job id " ++ str)) ∧
    (∀ id, convid str = some id → statLookup s id = none →
      getjob s str = .error ("unknown job id " ++ str)) := by
  have hiff := hexDecode_isSome str.data
  refine ⟨?_, ?_, ?_, ?_, ?_⟩
  · intro h
    obtain ⟨bs, hbs⟩ := Option.isSome_iff_exists.mp (hiff.mpr h)
    exact ⟨bs, hbs, by simp [convid, hbs]⟩
  · rw [← hiff]
    constructor
    · intro h hs
      rw [convid, Option.map_eq_none'] at h
      rw [h] at hs
      simp at hs
    · intro h
      rw [convid, Option.map_eq_none']
      exact Option.not_isSome_iff_eq_none.mp h
  · intro h
    simp [getjob, h]
  · intro h
    obtain ⟨id, hid⟩ := Option.ne_none_iff_exists'.mp h
    cases hl : statLookup s id with
    | some j => simp [getjob, hid, hl]
    | none =>
        simp only [getjob, hid, hl]
        intro hc
        simp only [Except.error.injEq] at hc
        have hlen := congrArg String.length hc
        have e15 : ("unknown job id " : String).length = 15 := rfl
        have e17 : ("malformed job id " : String).length = 17 := rfl
        simp only [String.length_append, e15, e17] at hlen
        omega
  · intro id hid hnone
    simp [getjob, hid, hnone]

/-- Witness for C9: `"abcd"` (even length 4, all hex, shorter than 32)
decodes and is reported unknown, not malformed; `"xyz"` is reported
malformed. -/
theorem convid_length_lenient_witness :
    (∃ bs, hexDecode "abcd".data = some bs ∧
      convid "abcd" = some (bs.take 16 ++ List.replicate (16 - bs.length) 0)) ∧
    getjob emptyServer "abcd" = .error ("unknown job id " ++ "abcd") ∧
    getjob emptyServer "xyz" = .error ("malformed job id " ++ "xyz") :=
  ⟨(convid_length_lenient emptyServer "abcd").1 (by decide),
   (convid_length_lenient emptyServer "abcd").2.2.2.2
     (171 :: 205 :: List.replicate 14 0) (by decide) (by decide),
   (convid_length_lenient emptyServer "xyz").2.2.1 (by decide)⟩

end Cloudlus

namespace Scen

theorem length_sortByX (samples : List (ℚ × ℚ)) :
    (sortByX samples).length = samples.length :=
  List.length_insertionSort _ samples

theorem interpExtrap_isSome (ss : List (ℚ × ℚ)) (x : ℚ)
    (h2 : 2 ≤ ss.length) : (interpExtrap ss x).isSome := by
  have ha : idx? ss ((ss.length : Int) - 2) =
      some (ss.get ⟨ss.length - 2, by omega⟩) := by
    rw [idx?, if_neg (by omega)]
    have : ((ss.length : Int) - 2).toNat = ss.length - 2 := by omega
    rw [this]
    exact List.getElem?_eq_getElem (by omega)
  have hb : idx? ss ((ss.length : Int) - 1) =
      some (ss.get ⟨ss.length - 1, by omega⟩) := by
    rw [idx?, if_neg (by omega)]
    have : ((ss.length : Int) - 1).toNat = ss.length - 1 := by omega
    rw [this]
    exact List.getElem?_eq_getElem (by omega)
  rw [interpExtrap, ha, hb]
  rfl

theorem interpLoop_isSome (ss : List (ℚ × ℚ)) (x : ℚ) (h2 : 2 ≤ ss.length)
    (i : Nat) : (interpLoop ss x i).isSome := by
  rw [interpLoop]
  split
  · rename_i h
    have hl : ss[i]? = some (ss.get ⟨i, by omega⟩) :=
      List.getElem?_eq_getElem (by omega)
    have hr : ss[i + 1]? = some (ss.get ⟨i + 1, by omega⟩) :=
      List.getElem?_eq_getElem (by omega)
    simp only [hl, hr]
    split
    · rfl
    · exact interpLoop_isSome ss x h2 (i + 1)
  · exact interpExtrap_isSome ss x h2
termination_by ss.length - i
decreasing_by omega

/-- Claim C10: the closure returned by `interpolate` is total only when
given at least two samples: with fewer than two samples every evaluation
performs an out-of-range slice or index access (a Go panic, modelled as
`none`); with at least two samples of pairwise distinct `X` values every
evaluation returns without any out-of-range access. -/
theorem interpolate_totality_boundary (samples : List (ℚ × ℚ)) :
    (samples.length < 2 → ∀ x, interpolate samples x = none) ∧
    (2 ≤ samples.length →
      samples.Pairwise (fun p q => p.1 ≠ q.1) →
      ∀ x, (interpolate samples x).isSome) := by
  constructor
  · intro hlt x
    rw [interpolate]
    have hcases : samples.length = 0 ∨ samples.length = 1 := by omega
    rcases hcases with h0 | h1
    · rw [if_pos]
      rw [length_sortByX, h0]
    · rw [if_neg (by rw [length_sortByX, h1]; omega)]
      rw [interpLoop, dif_neg (by rw [length_sortByX, h1]; omega)]
      rw [interpExtrap]
      have ha : idx? (sortByX samples) (((sortByX samples).length : Int) - 2)
          = none := by
        rw [idx?, if_pos]
        rw [length_sortByX, h1]
        omega
      rw [ha]
  · intro h2 _ x
    rw [interpolate]
    rw [if_neg (by rw [length_sortByX]; omega)]
    exact interpLoop_isSome _ x (by rw [length_sortByX]; omega) 0

/-- Witness for C10: the empty and one-sample sets panic on evaluation;
two distinct samples evaluate everywhere (here at `x = 3`). -/
theorem interpolate_totality_boundary_witness :
    interpolate ([] : List (ℚ × ℚ)) 3 = none ∧
    interpolate [((1 : ℚ), (5 : ℚ))] 3 = none ∧
    (interpolate [((1 : ℚ), (5 : ℚ)), ((2 : ℚ), (7 : ℚ))] 3).isSome :=
  ⟨(interpolate_totality_boundary []).1 (by decide) 3,
   (interpolate_totality_boundary [((1 : ℚ), (5 : ℚ))]).1 (by decide) 3,
   (interpolate_totality_boundary [((1 : ℚ), (5 : ℚ)), ((2 : ℚ), (7 : ℚ))]).2
     (by decide) (by norm_num) 3⟩

end Scen

namespace Cloudlus

/-- The rank of a status in the lifecycle order
Queued → Running → {Complete, Failed}: the two terminal states share the
top rank. -/
def rank : Status → Nat
  | .queued => 0
  | .running => 1
  | .complete => 2
  | .failed => 2

theorem rank_le_two (st : Status) : rank st ≤ 2 := by
  cases st <;> simp [rank]

/-- The dispatcher invariant: every queue reference points at an
allocated heap cell whose job is still Queued, queue references are
distinct (each submission allocates a fresh cell), and every cache
reference is allocated. -/
def INV (s : Server) : Prop :=
  (∀ r ∈ s.queue, r < s.heap.length ∧ (jobAt s r).status = .queued) ∧
  s.queue.Nodup ∧
  (∀ p ∈ s.alljobs, p.2 < s.heap.length)

/-- A dispatcher request is well-behaved when a submission's id is not
already cached (ids are assigned once and globally unique, spec §3) and
a pushed job carries a final status (Complete or Failed, the only values
the Push contract of spec §4.1 allows); fetches and stats are always
well-behaved. -/
def okOp (s : Server) : Op → Prop
  | .submit j _ _ => mapGet j.id s.alljobs = none
  | .push j => j.status = .complete ∨ j.status = .failed
  | .fetch => True
  | .stat _ => True

/-- Every request of the trace is well-behaved in the state it meets. -/
def okTrace : Server → List Op → Prop
  | _, [] => True
  | s, op :: ops => okOp s op ∧ okTrace (step s op) ops

theorem statView_eq_some (s : Server) (id : JobId) (st : Status) :
    statView s id = some st ↔
      ∃ r, mapGet id s.alljobs = some r ∧ (jobAt s r).status = st := by
  simp [statView, statLookup, Option.map_eq_some']

theorem mapGet_mem {V : Type} (k : JobId) (m : List (JobId × V)) (v : V)
    (h : mapGet k m = some v) : ∃ p ∈ m, p.2 = v := by
  rw [mapGet] at h
  cases hf : m.find? (fun p => p.1 = k) with
  | none => rw [hf] at h; simp at h
  | some p =>
      rw [hf] at h
      simp only [Option.map_some', Option.some.injEq] at h
      exact ⟨p, List.mem_of_find?_eq_some hf, h⟩

theorem pushOp_fst (s : Server) (j : Job) :
    (pushOp s j).1.heap = s.heap ++ [j] ∧
    (pushOp s j).1.queue = s.queue ∧
    (pushOp s j).1.alljobs = mapSet j.id s.heap.length s.alljobs := by
  rw [pushOp]
  cases mapGet j.id s.submitchans <;> exact ⟨rfl, rfl, rfl⟩

end Cloudlus

namespace Cloudlus

theorem step_mono (s : Server) (op : Op) (hinv : INV s) (hok : okOp s op) :
    INV (step s op) ∧
    ∀ id st, statView s id = some st →
      ∃ st', statView (step s op) id = some st' ∧ rank st ≤ rank st' := by
  obtain ⟨hq, hnd, hc⟩ := hinv
  cases op with
  | submit j waiter now =>
      simp only [step, okOp] at hok ⊢
      constructor
      · refine ⟨?_, ?_, ?_⟩
        · intro r hr
          simp only [submitOp, List.mem_append, List.mem_singleton] at hr
          rcases hr with hr | hr
          · obtain ⟨hlt, hst⟩ := hq r hr
            refine ⟨?_, ?_⟩
            · simp only [submitOp, List.length_append, List.length_singleton]
              omega
            · rw [jobAt_submitOp_old s j waiter now r hlt]
              exact hst
          · subst hr
            refine ⟨?_, ?_⟩
            · simp only [submitOp, List.length_append, List.length_singleton]
              omega
            · rw [jobAt_submitOp_new s j waiter now]
        · simp only [submitOp]
          rw [List.nodup_append]
          refine ⟨hnd, List.nodup_singleton _, ?_⟩
          intro r hr hmem
          obtain ⟨hlt, _⟩ := hq r hr
          simp only [List.mem_singleton] at hmem
          omega
        · intro p hp
          simp only [submitOp] at hp ⊢
          rcases mem_mapSet _ _ _ p hp with h | h
          · rw [h]
            simp
          · have := hc p h
            simp only [List.length_append, List.length_singleton]
            omega
      · intro id st hv
        rw [statView_eq_some] at hv
        obtain ⟨r, hget, hst⟩ := hv
        have hne : id ≠ j.id := by
          intro he
          rw [he, hok] at hget
          exact Option.noConfusion hget
        have hrlt : r < s.heap.length := by
          obtain ⟨p, hpm, hp2⟩ := mapGet_mem id s.alljobs r hget
          have := hc p hpm
          omega
        refine ⟨st, ?_, le_refl _⟩
        rw [statView_eq_some]
        refine ⟨r, ?_, ?_⟩
        · simp only [submitOp]
          rw [mapGet_set_ne j.id id _ _ hne]
          exact hget
        · rw [jobAt_submitOp_old s j waiter now r hrlt]
          exact hst
  | push j =>
      simp only [step, okOp] at hok ⊢
      obtain ⟨hh, hqe, ha⟩ := pushOp_fst s j
      constructor
      · refine ⟨?_, ?_, ?_⟩
        · intro r hr
          rw [hqe] at hr
          obtain ⟨hlt, hst⟩ := hq r hr
          refine ⟨?_, ?_⟩
          · rw [hh, List.length_append]
            omega
          · simp only [jobAt]
            rw [hh, List.getD_append _ _ _ _ hlt]
            exact hst
        · rw [hqe]
          exact hnd
        · intro p hp
          rw [ha] at hp
          rcases mem_mapSet _ _ _ p hp with h | h
          · rw [h, hh, List.length_append]
            simp
          · have := hc p h
            rw [hh, List.length_append]
            omega
      · intro id st hv
        rw [statView_eq_some] at hv
        obtain ⟨r, hget, hst⟩ := hv
        by_cases hid : id = j.id
        · refine ⟨j.status, ?_, ?_⟩
          · rw [statView_eq_some]
            refine ⟨s.heap.length, ?_, ?_⟩
            · rw [ha, hid]
              exact mapGet_set_self _ _ _
            · simp only [jobAt]
              rw [hh, List.getD_append_right _ _ _ _ (Nat.le_refl _)]
              simp [List.getD]
          · have h2 : rank j.status = 2 := by
              rcases hok with h | h <;> rw [h] <;> rfl
            rw [h2]
            exact rank_le_two st
        · have hrlt : r < s.heap.length := by
            obtain ⟨p, hpm, hp2⟩ := mapGet_mem id s.alljobs r hget
            have := hc p hpm
            omega
          refine ⟨st, ?_, le_refl _⟩
          rw [statView_eq_some]
          refine ⟨r, ?_, ?_⟩
          · rw [ha, mapGet_set_ne j.id id _ _ hid]
            exact hget
          · simp only [jobAt]
            rw [hh, List.getD_append _ _ _ _ hrlt]
            exact hst
  | fetch =>
      cases hqe : s.queue with
      | nil =>
          have hs : step s .fetch = s := by
            simp [step, fetchOp, hqe]
          rw [hs]
          exact ⟨⟨hq, hnd, hc⟩, fun id st hv => ⟨st, hv, le_refl _⟩⟩
      | cons r0 rest =>
          have hs : step s .fetch =
              { s with
                  heap := s.heap.set r0 { jobAt s r0 with status := .running },
                  queue := rest } := by
            simp [step, fetchOp, hqe]
          rw [hs]
          obtain ⟨h0lt, h0st⟩ := hq r0 (by rw [hqe]; exact List.mem_cons_self _ _)
          have hr0notin : r0 ∉ rest := by
            rw [hqe, List.nodup_cons] at hnd
            exact hnd.1
          constructor
          · refine ⟨?_, ?_, ?_⟩
            · intro r hr
              obtain ⟨hlt, hst⟩ := hq r (by rw [hqe]; exact List.mem_cons_of_mem _ hr)
              have hne : r0 ≠ r := fun he => hr0notin (he ▸ hr)
              refine ⟨by simpa using hlt, ?_⟩
              simp only [jobAt]
              simp only [List.getD_eq_getElem?_getD, List.getElem?_set_ne hne]
              simpa [jobAt, List.getD_eq_getElem?_getD] using hst
            · rw [hqe, List.nodup_cons] at hnd
              exact hnd.2
            · intro p hp
              have := hc p hp
              simpa using this
          · intro id st hv
            rw [statView_eq_some] at hv
            obtain ⟨r, hget, hst⟩ := hv
            by_cases hrc : r = r0
            · subst hrc
              have hstq : st = .queued := by
                rw [← hst, h0st]
              refine ⟨.running, ?_, ?_⟩
              · rw [statView_eq_some]
                refine ⟨r, hget, ?_⟩
                simp only [jobAt, List.getD_eq_getElem?_getD,
                  List.getElem?_set_self, h0lt]
                simp
              · rw [hstq]
                simp [rank]
            · refine ⟨st, ?_, le_refl _⟩
              rw [statView_eq_some]
              have hne : r0 ≠ r := fun he => hrc he.symm
              refine ⟨r, hget, ?_⟩
              simp only [jobAt, List.getD_eq_getElem?_getD,
                List.getElem?_set_ne hne]
              simpa [jobAt, List.getD_eq_getElem?_getD] using hst
  | stat q =>
      exact ⟨⟨hq, hnd, hc⟩, fun id st hv => ⟨st, hv, le_refl _⟩⟩

end Cloudlus

namespace Cloudlus

/-- Counterexample to claim C5 as stated: `Push` upserts the pushed job
unconditionally, so pushing a job value whose `Status` is still Queued
for an id whose observed status is Running makes the observed status
regress.  Concretely: submit `jobW1`, fetch it (observed Running), then
push the original Queued snapshot `jobW1` again — `Stat` now observes
Queued, a strictly smaller rank. -/
theorem push_can_regress_observed_status :
    statView (step (step emptyServer (.submit jobW1 none 0)) .fetch)
      jobW1.id = some .running ∧
    statView (step (step (step emptyServer (.submit jobW1 none 0)) .fetch)
      (.push jobW1)) jobW1.id = some .queued ∧
    rank .queued < rank .running := by
  refine ⟨by decide, by decide, by decide⟩

/-- Claim C5 (amended): provided every submission uses an id not already
in the result cache (ids are assigned once and globally unique) and
every pushed job carries a final status (Complete or Failed, as the Push
contract states), the status of any job observed through `Stat`/
`Retrieve` never regresses along any dispatcher trace: its rank in the
order Queued(0) < Running(1) < Complete(2) = Failed(2) is
non-decreasing. -/
theorem status_monotonic_wellbehaved (s : Server) (ops : List Op)
    (hinv : INV s) (hok : okTrace s ops) (id : JobId) (st : Status)
    (hv : statView s id = some st) :
    ∃ st', statView (run s ops) id = some st' ∧ rank st ≤ rank st' := by
  induction ops generalizing s st with
  | nil => exact ⟨st, hv, le_refl _⟩
  | cons op rest ih =>
      obtain ⟨hok1, hokr⟩ := hok
      obtain ⟨hinv', hmono⟩ := step_mono s op hinv hok1
      obtain ⟨st1, hv1, hle1⟩ := hmono id st hv
      obtain ⟨st', hv', hle'⟩ := ih (step s op) hinv' hokr st1 hv1
      exact ⟨st', hv', le_trans hle1 hle'⟩

/-- Witness for the amended C5: after submitting `jobW1`, the trace
fetch-then-push-Complete keeps the observed status of `jobW1.id`
non-decreasing from its initial Queued observation. -/
theorem status_monotonic_wellbehaved_witness :
    ∃ st', statView (run (step emptyServer (.submit jobW1 none 0))
      [.fetch, .push jobW2]) jobW1.id = some st' ∧
      rank .queued ≤ rank st' :=
  status_monotonic_wellbehaved (step emptyServer (.submit jobW1 none 0))
    [.fetch, .push jobW2]
    ⟨by decide, by decide, by decide⟩
    ⟨trivial, Or.inl rfl, trivial⟩
    jobW1.id .queued (by decide)

end Cloudlus
